import Mathlib

/-!
Shallow embedding of the LiteLLM gateway client
(`src/agentic_platform/core/client/llm_gateway/litellm_gateway_client.py`)
and verification of its specification.

The client module itself is embedded directly from the source.  The converter
collaborator (`LiteLLMResponseConverter.parse_streaming_line`,
`LiteLLMResponseConverter.process_streaming_chunk`,
`LiteLLMResponseConverter.to_llm_response`) is not part of the available
source tree; those definitions are modelled from the specification
(StreamLineParser §4.3, ChunkAccumulator §4.4, ResponseDecoder §4.5) and are
marked as such in their doc comments.

HTTP transport is abstracted: an invocation is a pure function of the response
status code, the response body text, and (for streaming modes) the list of raw
lines of the response body.
-/

set_option autoImplicit false

namespace LiteLLMGateway

/-- Token usage counts as carried by the wire protocol (§6). -/
structure Usage where
  prompt_tokens : Nat := 0
  completion_tokens : Nat := 0
  total_tokens : Nat := 0
deriving DecidableEq, Repr

/-- One tool-call delta of a streaming chunk:
`{"index":int, "id"?:string, "function":{"name"?:string, "arguments"?:string}}`
(§6 wire protocol). -/
structure ToolFragDelta where
  index : Nat
  id : Option String := none
  name : Option String := none
  arguments : Option String := none
deriving DecidableEq, Repr

/-- A successfully parsed streaming chunk
`{deltaText?, deltaToolCallFragments?, finishReason?, usage?}` (§4.3). -/
structure Chunk where
  deltaText : Option String := none
  toolFragments : List ToolFragDelta := []
  finishReason : Option String := none
  usage : Option Usage := none
deriving DecidableEq, Repr

/-- One raw line of the streaming transport, classified by its syntactic shape.
The JSON grammar itself is abstracted: `chunk c` stands for a line
`data: {json}` whose payload parses to the chunk `c`, `malformed` for a
non-blank, non-sentinel line whose payload fails to parse as JSON,
`done` for the literal terminal sentinel line `data: [DONE]`, and
`empty` / `whitespace` for a line that is empty resp. non-empty but
whitespace-only. -/
inductive RawLine
  | empty
  | whitespace
  | malformed
  | done
  | chunk (c : Chunk)
deriving DecidableEq, Repr

/-- A tool call under construction inside the accumulator: optional call id,
optional function name, and the accumulating argument-string buffer (§3). -/
structure Fragment where
  id : Option String := none
  name : Option String := none
  arguments : String := ""
deriving DecidableEq, Repr

/-- The per-stream accumulator state (`accumulated_state` in the client):
text buffer, tool-call fragments keyed by position index, optional finish
reason, optional usage (§3 StreamState). -/
structure StreamState where
  text : String := ""
  toolCalls : List (Nat × Fragment) := []
  finishReason : Option String := none
  usage : Option Usage := none
deriving DecidableEq, Repr

/-- The fresh accumulator created at the start of each streaming invocation
(`accumulated_state = {}`). -/
def emptyState : StreamState := {}

/-- The domain response snapshot (`LLMResponse`): message text, tool calls,
finish reason, usage. -/
structure LLMResponse where
  text : String := ""
  toolCalls : List (Nat × Fragment) := []
  finishReason : Option String := none
  usage : Option Usage := none
deriving DecidableEq, Repr

/-- The single error raised by every invocation on a non-success HTTP status:
`GatewayHTTPError{status, body}` (§7).  In the source the raised exception
carries the status code and the response body text in its message. -/
structure GatewayHTTPError where
  status : Nat
  body : String
deriving DecidableEq, Repr

/-- Outcome of parsing one raw streaming line: either the terminal signal
(`data: [DONE]`) or a structured chunk. -/
inductive ParsedLine
  | terminal
  | chunk (c : Chunk)
deriving DecidableEq, Repr

/-- Modelled from the spec: `LiteLLMResponseConverter.parse_streaming_line`
is not in the available source tree; §4.3 StreamLineParser gives its policy:
whitespace-only lines and lines whose JSON payload fails to parse are ignored
(`none`), the sentinel line is the terminal signal, any other line is a
structured chunk. -/
def parse_streaming_line : RawLine → Option ParsedLine
  | .empty => none
  | .whitespace => none
  | .malformed => none
  | .done => some .terminal
  | .chunk c => some (.chunk c)

/-- Look up the fragment at a position index in the accumulator's tool-call
table. -/
def getFrag : List (Nat × Fragment) → Nat → Option Fragment
  | [], _ => none
  | (j, g) :: rest, i => if j = i then some g else getFrag rest i

/-- Store a fragment at a position index, replacing an existing entry for
that index or appending a new one. -/
def setFrag : List (Nat × Fragment) → Nat → Fragment → List (Nat × Fragment)
  | [], i, f => [(i, f)]
  | (j, g) :: rest, i, f =>
    if j = i then (j, f) :: rest else (j, g) :: setFrag rest i f

/-- First operand if present, otherwise the second. -/
def optOr {α : Type} : Option α → Option α → Option α
  | some a, _ => some a
  | none, b => b

/-- The update a single tool-call delta performs on the fragment at its index:
create the fragment on first mention; a delta carrying a name overwrites the
name (last write wins); a delta carrying an argument string appends it to the
argument buffer (§4.4). -/
def stepFrag : Option Fragment → ToolFragDelta → Fragment
  | none, d => { id := d.id, name := d.name, arguments := d.arguments.getD "" }
  | some f, d =>
    { id := optOr d.id f.id
      name := optOr d.name f.name
      arguments := f.arguments ++ d.arguments.getD "" }

/-- Apply one tool-call delta to the accumulator's tool-call table. -/
def applyFragDelta (tc : List (Nat × Fragment)) (d : ToolFragDelta) :
    List (Nat × Fragment) :=
  setFrag tc d.index (stepFrag (getFrag tc d.index) d)

/-- Modelled from the spec: `LiteLLMResponseConverter.process_streaming_chunk`
is not in the available source tree; §4.4 ChunkAccumulator gives its merge
rules: append `deltaText` to the text buffer, apply each tool-call delta,
set `finishReason` when carried, replace `usage` when carried. -/
def process_streaming_chunk (s : StreamState) (c : Chunk) : StreamState :=
  { text := s.text ++ c.deltaText.getD ""
    toolCalls := c.toolFragments.foldl applyFragDelta s.toolCalls
    finishReason := optOr c.finishReason s.finishReason
    usage := optOr c.usage s.usage }

/-- Modelled from the spec: the snapshot `process_streaming_chunk` returns to
the client after each merge — the decoded view of the accumulator state
(§4.5 ResponseDecoder on a stream snapshot). -/
def snapshotOf (s : StreamState) : LLMResponse :=
  { text := s.text
    toolCalls := s.toolCalls
    finishReason := s.finishReason
    usage := s.usage }

/-- Whether the client's `if not line: continue` guard skips the line:
in Python only the empty string is falsy. -/
def isFalsyLine : RawLine → Bool
  | .empty => true
  | _ => false

/-- One iteration of the client's streaming loop on one raw line: returns the
successor state and the snapshot yielded for that line, if any.  Mirrors the
loop body of `chat_invoke_stream`: skip falsy lines, parse, skip when the
parse produced nothing or the terminal marker (`continue`, not `break`),
otherwise merge the chunk and yield the snapshot. -/
def stepLine (s : StreamState) (l : RawLine) : StreamState × Option LLMResponse :=
  if isFalsyLine l then (s, none)
  else
    match parse_streaming_line l with
    | none => (s, none)
    | some .terminal => (s, none)
    | some (.chunk c) =>
      let s' := process_streaming_chunk s c
      (s', some (snapshotOf s'))

/-- The client's streaming loop over the raw lines of the response body,
yielding the list of snapshots in order. -/
def processLines : StreamState → List RawLine → List LLMResponse
  | _, [] => []
  | s, l :: ls =>
    match stepLine s l with
    | (s', none) => processLines s' ls
    | (s', some r) => r :: processLines s' ls

/-- The accumulator state after the client's streaming loop has consumed all
raw lines. -/
def finalState : StreamState → List RawLine → StreamState
  | s, [] => s
  | s, l :: ls => finalState (stepLine s l).1 ls

/-- `chat_invoke_stream`: on a non-200 status raise `GatewayHTTPError` before
touching the body; otherwise process the body's lines with a fresh empty
accumulator and yield the snapshots. -/
def chat_invoke_stream (status : Nat) (body : String) (lines : List RawLine) :
    Except GatewayHTTPError (List LLMResponse) :=
  if status ≠ 200 then Except.error { status := status, body := body }
  else Except.ok (processLines emptyState lines)

/-- `chat_invoke_stream_async`: identical control flow to the synchronous
variant — status check first, then the same line loop over a fresh empty
accumulator. -/
def chat_invoke_stream_async (status : Nat) (body : String) (lines : List RawLine) :
    Except GatewayHTTPError (List LLMResponse) :=
  if status ≠ 200 then Except.error { status := status, body := body }
  else Except.ok (processLines emptyState lines)

/-- The wire JSON of a complete (non-streaming) chat completion, §6: message
content, tool calls, finish reason, usage. -/
structure NonStreamingResponse where
  content : String := ""
  tool_calls : List (Nat × Fragment) := []
  finish_reason : Option String := none
  usage : Option Usage := none
deriving DecidableEq, Repr

/-- Modelled from the spec: `LiteLLMResponseConverter.to_llm_response` is not
in the available source tree; §4.5 ResponseDecoder: build one response from
the finalized wire JSON. -/
def to_llm_response (j : NonStreamingResponse) : LLMResponse :=
  { text := j.content
    toolCalls := j.tool_calls
    finishReason := j.finish_reason
    usage := j.usage }

/-- `chat_invoke`: blocking call; on a non-200 status raise
`GatewayHTTPError`, otherwise decode the complete response JSON. -/
def chat_invoke (status : Nat) (body : String) (j : NonStreamingResponse) :
    Except GatewayHTTPError LLMResponse :=
  if status ≠ 200 then Except.error { status := status, body := body }
  else Except.ok (to_llm_response j)

/-- One entry of the embeddings response: `{"embedding": [...]}`, possibly
absent. -/
structure EmbedEntry where
  embedding : Option (List Int) := none
deriving DecidableEq, Repr

/-- The embeddings response JSON `{data?: [{embedding?: [...]}, ...]}`.
`data = none` models a JSON object without a `"data"` key. -/
structure EmbedJson where
  data : Option (List EmbedEntry) := none
deriving DecidableEq, Repr

/-- The embedding response domain object. -/
structure EmbedResponse where
  embedding : List Int
deriving DecidableEq, Repr

/-- The embedding-extraction step of `embed_invoke`:
`if "data" in r and r["data"]: embedding = r["data"][0].get("embedding", [])`
with the empty vector as default in every fallthrough. -/
def extractEmbedding (j : EmbedJson) : List Int :=
  match j.data with
  | some (e :: _) => e.embedding.getD []
  | _ => []

/-- `embed_invoke`: on a non-200 status raise `GatewayHTTPError`, otherwise
return the extracted embedding (empty vector when absent). -/
def embed_invoke (status : Nat) (body : String) (j : EmbedJson) :
    Except GatewayHTTPError EmbedResponse :=
  if status ≠ 200 then Except.error { status := status, body := body }
  else Except.ok { embedding := extractEmbedding j }

/-- A configuration error at client construction (§7 taxonomy).  The source
has no such error; the type exists so the construction result can state
whether construction can fail. -/
structure ConfigurationError where
  message : String
deriving DecidableEq, Repr

/-- Module-level endpoint resolution:
`LITELLM_API_ENDPOINT = os.getenv('LITELLM_API_ENDPOINT', 'http://localhost:4000')`.
`env = none` models an absent environment variable. -/
def LITELLM_API_ENDPOINT (env : Option String) : String :=
  env.getD "http://localhost:4000"

/-- The constructed gateway client: `self.api_endpoint` and `self.api_key`. -/
structure LiteLLMGatewayClient where
  api_endpoint : String
  api_key : Option String
deriving DecidableEq, Repr

/-- Python's `a or b` on an optional string: `a` unless it is `None` or
empty (falsy). -/
def pyOr : Option String → Option String → Option String
  | some s, b => if s = "" then b else some s
  | none, b => b

/-- `LiteLLMGatewayClient.__init__`: stores the module-level endpoint and
`api_key or LITELLM_API_KEY`.  The `Except` layer exposes whether
construction can fail; the source `__init__` has no failure path, so the
result is always `ok`. -/
def mkLiteLLMGatewayClient (envEndpoint envKey apiKey : Option String) :
    Except ConfigurationError LiteLLMGatewayClient :=
  Except.ok
    { api_endpoint := LITELLM_API_ENDPOINT envEndpoint
      api_key := pyOr apiKey envKey }

/-- Concatenation of a list of strings in order. -/
def concatAll : List String → String
  | [] => ""
  | x :: rest => x ++ concatAll rest

/-- Whether a raw line is blank: empty or whitespace-only. -/
def isBlank : RawLine → Bool
  | .empty => true
  | .whitespace => true
  | _ => false

/-- All tool-call deltas carried by a chunk sequence, in arrival order. -/
def fragDeltas (cs : List Chunk) : List ToolFragDelta :=
  (cs.map Chunk.toolFragments).flatten

/-- Whether a raw line survives the blank-line policy. -/
def notBlank (l : RawLine) : Bool := !isBlank l

/-- The tool-call deltas of a chunk sequence that touch position index `i`,
in arrival order. -/
def deltasAt (i : Nat) (cs : List Chunk) : List ToolFragDelta :=
  (fragDeltas cs).filter (fun d => d.index == i)

/-- The argument deltas contributed to position index `i`, in arrival
order. -/
def argDeltasAt (i : Nat) (cs : List Chunk) : List String :=
  (deltasAt i cs).filterMap ToolFragDelta.arguments

/-- The function names written to position index `i`, in arrival order. -/
def namesAt (i : Nat) (cs : List Chunk) : List String :=
  (deltasAt i cs).filterMap ToolFragDelta.name

/-- Folding a run of tool-call deltas into the fragment at one position
index. -/
def stepFragAll (f0 : Option Fragment) (ds : List ToolFragDelta) :
    Option Fragment :=
  ds.foldl (fun of d => some (stepFrag of d)) f0

/-- The tool-call table after one streaming invocation has merged the given
chunk sequence, starting from the fresh empty accumulator. -/
def finalToolCalls (cs : List Chunk) : List (Nat × Fragment) :=
  (finalState emptyState (cs.map RawLine.chunk)).toolCalls

/-- Tagged interleaved execution of two concurrent streaming invocations,
each owning its own accumulator state: a `true`-tagged line is processed
against the first state, a `false`-tagged line against the second, exactly as
`stepLine` does within a single invocation. -/
def runTwo : StreamState → StreamState → List (Bool × RawLine) →
    List (Bool × LLMResponse)
  | _, _, [] => []
  | sA, sB, (tag, l) :: ls =>
    if tag then
      match stepLine sA l with
      | (sA', none) => runTwo sA' sB ls
      | (sA', some r) => (true, r) :: runTwo sA' sB ls
    else
      match stepLine sB l with
      | (sB', none) => runTwo sA sB' ls
      | (sB', some r) => (false, r) :: runTwo sA sB' ls

/-- The lines of an interleaved schedule that belong to the invocation with
the given tag. -/
def ownLines (tag : Bool) (ls : List (Bool × RawLine)) : List RawLine :=
  ls.filterMap (fun p => if p.1 = tag then some p.2 else none)

/-- The snapshots of an interleaved execution that belong to the invocation
with the given tag. -/
def ownSnapshots (tag : Bool) (rs : List (Bool × LLMResponse)) :
    List LLMResponse :=
  rs.filterMap (fun p => if p.1 = tag then some p.2 else none)

/-- The spec's description of the blocking call (§4.6): drain the streaming
sequence internally and keep only the final snapshot, exposing no
intermediate one. -/
def chat_invoke_spec (status : Nat) (body : String) (lines : List RawLine) :
    Except GatewayHTTPError (Option LLMResponse) :=
  (chat_invoke_stream status body lines).map List.getLast?

lemma stepLine_none (s : StreamState) (l : RawLine) :
    (stepLine s l).2 = none → (stepLine s l).1 = s := by
  cases l <;> simp [stepLine, parse_streaming_line, isFalsyLine]

lemma stepLine_some (s : StreamState) (l : RawLine) (s' : StreamState)
    (r : LLMResponse) : stepLine s l = (s', some r) → r = snapshotOf s' := by
  cases l <;> simp [stepLine, parse_streaming_line, isFalsyLine]
  intro h1 h2
  rw [← h2, h1]

@[simp] lemma notBlank_empty : notBlank RawLine.empty = false := rfl

@[simp] lemma notBlank_whitespace : notBlank RawLine.whitespace = false := rfl

@[simp] lemma notBlank_malformed : notBlank RawLine.malformed = true := rfl

@[simp] lemma notBlank_done : notBlank RawLine.done = true := rfl

@[simp] lemma notBlank_chunk (c : Chunk) : notBlank (RawLine.chunk c) = true := rfl

lemma text_finalState_chunks (cs : List Chunk) : ∀ s : StreamState,
    (finalState s (cs.map RawLine.chunk)).text =
      s.text ++ concatAll (cs.filterMap Chunk.deltaText) := by
  induction cs with
  | nil => intro s; simp [finalState, concatAll]
  | cons c cs ih =>
    intro s
    cases hd : c.deltaText with
    | none =>
      simp [finalState, stepLine, parse_streaming_line, isFalsyLine,
        process_streaming_chunk, ih, hd, concatAll]
    | some t =>
      simp [finalState, stepLine, parse_streaming_line, isFalsyLine,
        process_streaming_chunk, ih, hd, concatAll, String.append_assoc]

lemma drop_blanks (ls : List RawLine) : ∀ s : StreamState,
    processLines s (ls.filter notBlank) = processLines s ls ∧
    finalState s (ls.filter notBlank) = finalState s ls := by
  induction ls with
  | nil => intro s; exact ⟨rfl, rfl⟩
  | cons l ls ih =>
    intro s
    cases l <;>
      simp [processLines, finalState, stepLine, parse_streaming_line,
        isFalsyLine, List.filter_cons, ih]

lemma drop_malformed (pre : List RawLine) :
    ∀ (s : StreamState) (post : List RawLine),
    processLines s (pre ++ RawLine.malformed :: post) =
      processLines s (pre ++ post) ∧
    finalState s (pre ++ RawLine.malformed :: post) =
      finalState s (pre ++ post) := by
  induction pre with
  | nil =>
    intro s post
    constructor <;>
      simp [processLines, finalState, stepLine, parse_streaming_line,
        isFalsyLine]
  | cons l pre ih =>
    intro s post
    constructor <;>
    · simp only [List.cons_append, processLines, finalState]
      rcases h2 : stepLine s l with ⟨s', r⟩
      cases r <;> simp [(ih s' post).1, (ih s' post).2]

/-- C4: for every chunk sequence processed by one streaming invocation, the
final decoded message text equals the concatenation, in wire arrival order,
of every `deltaText` carried by the chunks — appended to the running buffer
with no deduplication and no reordering. -/
theorem C4_final_text_is_concat_of_deltaTexts (cs : List Chunk) :
    (snapshotOf (finalState emptyState (cs.map RawLine.chunk))).text =
      concatAll (cs.filterMap Chunk.deltaText) := by
  have h := text_finalState_chunks cs emptyState
  simp only [snapshotOf]
  rw [h]
  simp [emptyState]

/-- C6: a raw line that is empty or whitespace-only is ignored — no state
change and no snapshot — so blank lines interleaved between valid chunks
leave the yielded snapshots and the accumulator state identical to processing
the remaining lines alone. -/
theorem C6_blank_lines_ignored (s : StreamState) (ls : List RawLine) :
    processLines s (RawLine.empty :: ls) = processLines s ls ∧
    processLines s (RawLine.whitespace :: ls) = processLines s ls ∧
    finalState s (RawLine.empty :: ls) = finalState s ls ∧
    finalState s (RawLine.whitespace :: ls) = finalState s ls ∧
    processLines s ls = processLines s (ls.filter notBlank) ∧
    finalState s ls = finalState s (ls.filter notBlank) := by
  refine ⟨?_, ?_, ?_, ?_, ((drop_blanks ls s).1).symm, ((drop_blanks ls s).2).symm⟩ <;>
    simp [processLines, finalState, stepLine, parse_streaming_line, isFalsyLine]

/-- C7: a non-blank, non-sentinel line whose payload fails to parse as JSON
is dropped silently — the stream continues with unchanged accumulator state,
no snapshot is yielded for that line, and no error is raised (the invocation
result is the same `ok` value with or without the malformed line). -/
theorem C7_malformed_line_dropped_silently (s : StreamState) (body : String)
    (pre post : List RawLine) :
    processLines s (pre ++ RawLine.malformed :: post) =
      processLines s (pre ++ post) ∧
    finalState s (pre ++ RawLine.malformed :: post) =
      finalState s (pre ++ post) ∧
    chat_invoke_stream 200 body (pre ++ RawLine.malformed :: post) =
      chat_invoke_stream 200 body (pre ++ post) := by
  refine ⟨(drop_malformed pre s post).1, (drop_malformed pre s post).2, ?_⟩
  simp [chat_invoke_stream, (drop_malformed pre emptyState post).1]

lemma runTwo_proj (ls : List (Bool × RawLine)) : ∀ sA sB : StreamState,
    ownSnapshots true (runTwo sA sB ls) = processLines sA (ownLines true ls) ∧
    ownSnapshots false (runTwo sA sB ls) = processLines sB (ownLines false ls) := by
  induction ls with
  | nil => intro sA sB; exact ⟨rfl, rfl⟩
  | cons p ls ih =>
    intro sA sB
    obtain ⟨tag, l⟩ := p
    cases tag
    · rcases h2 : stepLine sB l with ⟨sB', r⟩
      cases r <;>
      · simp [runTwo, ownLines, ownSnapshots, List.filterMap_cons,
          processLines, h2]
        exact ih _ _
    · rcases h2 : stepLine sA l with ⟨sA', r⟩
      cases r <;>
      · simp [runTwo, ownLines, ownSnapshots, List.filterMap_cons,
          processLines, h2]
        exact ih _ _

lemma optOr_none_right {α : Type} (a : Option α) : optOr a none = a := by
  cases a <;> rfl

lemma getFrag_setFrag (tc : List (Nat × Fragment)) (i k : Nat) (f : Fragment) :
    getFrag (setFrag tc i f) k = if i = k then some f else getFrag tc k := by
  induction tc with
  | nil => simp [setFrag, getFrag]
  | cons p rest ih =>
    obtain ⟨j, g⟩ := p
    by_cases h1 : j = i
    · subst h1
      by_cases h2 : j = k <;> simp [setFrag, getFrag, h2]
    · by_cases h2 : j = k
      · subst h2
        have h3 : ¬ i = j := fun hh => h1 hh.symm
        simp [setFrag, getFrag, h1, h3]
      · simp [setFrag, getFrag, h1, h2, ih]

lemma getFrag_applyFragDelta (tc : List (Nat × Fragment)) (d : ToolFragDelta)
    (k : Nat) :
    getFrag (applyFragDelta tc d) k =
      if d.index = k then some (stepFrag (getFrag tc d.index) d)
      else getFrag tc k := by
  simp [applyFragDelta, getFrag_setFrag]

lemma toolCalls_finalState_chunks (cs : List Chunk) : ∀ s : StreamState,
    (finalState s (cs.map RawLine.chunk)).toolCalls =
      (fragDeltas cs).foldl applyFragDelta s.toolCalls := by
  induction cs with
  | nil => intro s; simp [finalState, fragDeltas]
  | cons c cs ih =>
    intro s
    simp [finalState, stepLine, parse_streaming_line, isFalsyLine, fragDeltas,
      List.foldl_append, ih, process_streaming_chunk]

lemma getFrag_foldl (ds : List ToolFragDelta) :
    ∀ (tc : List (Nat × Fragment)) (k : Nat),
    getFrag (ds.foldl applyFragDelta tc) k =
      stepFragAll (getFrag tc k) (ds.filter (fun d => d.index == k)) := by
  induction ds with
  | nil => intro tc k; rfl
  | cons d ds ih =>
    intro tc k
    by_cases h : d.index = k
    · have hb : (d.index == k) = true := by simp [h]
      simp [List.foldl_cons, List.filter_cons, hb, ih, stepFragAll,
        getFrag_applyFragDelta, h]
    · have hb : (d.index == k) = false := by simp [h]
      simp [List.foldl_cons, List.filter_cons, hb, ih,
        getFrag_applyFragDelta, h]

lemma stepFragAll_some_isSome :
    ∀ (ds : List ToolFragDelta) (f : Fragment),
    (stepFragAll (some f) ds).isSome := by
  intro ds
  induction ds with
  | nil => intro f; rfl
  | cons d ds ih => intro f; exact ih (stepFrag (some f) d)

lemma stepFragAll_some_args (ds : List ToolFragDelta) : ∀ f : Fragment,
    (stepFragAll (some f) ds).map Fragment.arguments =
      some (f.arguments ++ concatAll (ds.filterMap ToolFragDelta.arguments)) := by
  induction ds with
  | nil => intro f; simp [stepFragAll, concatAll]
  | cons d ds ih =>
    intro f
    have hstep : stepFragAll (some f) (d :: ds) =
        stepFragAll (some (stepFrag (some f) d)) ds := rfl
    rw [hstep, ih]
    cases ha : d.arguments with
    | none => simp [stepFrag, ha, List.filterMap_cons]
    | some a =>
      simp [stepFrag, ha, List.filterMap_cons, concatAll, String.append_assoc]

lemma stepFragAll_args (ds : List ToolFragDelta) (hne : ds ≠ []) :
    (stepFragAll none ds).map Fragment.arguments =
      some (concatAll (ds.filterMap ToolFragDelta.arguments)) := by
  cases ds with
  | nil => cases hne rfl
  | cons d ds =>
    have hstep : stepFragAll none (d :: ds) =
        stepFragAll (some (stepFrag none d)) ds := rfl
    rw [hstep, stepFragAll_some_args]
    cases ha : d.arguments with
    | none => simp [stepFrag, ha, List.filterMap_cons]
    | some a => simp [stepFrag, ha, List.filterMap_cons, concatAll]

lemma getLast?_cons_opt {α : Type} (n : α) (F : List α) :
    (n :: F).getLast? = optOr F.getLast? (some n) := by
  cases F with
  | nil => rfl
  | cons m F' =>
    rw [List.getLast?_cons_cons]
    cases h : (m :: F').getLast? with
    | none =>
      have hs : (m :: F').getLast?.isSome := by
        rw [List.getLast?_isSome]
        simp
      rw [h] at hs
      simp at hs
    | some x => simp [optOr, h]

lemma stepFragAll_some_name (ds : List ToolFragDelta) : ∀ f : Fragment,
    (stepFragAll (some f) ds).bind Fragment.name =
      optOr (ds.filterMap ToolFragDelta.name).getLast? f.name := by
  induction ds with
  | nil => intro f; simp [stepFragAll, optOr]
  | cons d ds ih =>
    intro f
    have hstep : stepFragAll (some f) (d :: ds) =
        stepFragAll (some (stepFrag (some f) d)) ds := rfl
    rw [hstep, ih]
    cases hn : d.name with
    | none => simp [stepFrag, hn, List.filterMap_cons, optOr]
    | some n =>
      have hname : (stepFrag (some f) d).name = some n := by
        simp [stepFrag, hn, optOr]
      rw [hname]
      have hfm : (d :: ds).filterMap ToolFragDelta.name =
          n :: ds.filterMap ToolFragDelta.name := by
        simp [List.filterMap_cons, hn]
      rw [hfm, getLast?_cons_opt]
      cases h : (ds.filterMap ToolFragDelta.name).getLast? <;> simp [optOr, h]

lemma stepFragAll_name (ds : List ToolFragDelta) :
    (stepFragAll none ds).bind Fragment.name =
      (ds.filterMap ToolFragDelta.name).getLast? := by
  cases ds with
  | nil => rfl
  | cons d ds =>
    have hstep : stepFragAll none (d :: ds) =
        stepFragAll (some (stepFrag none d)) ds := rfl
    rw [hstep, stepFragAll_some_name]
    have hname : (stepFrag none d).name = d.name := by simp [stepFrag]
    rw [hname]
    cases hn : d.name with
    | none => simp [List.filterMap_cons, hn, optOr_none_right]
    | some n =>
      have hfm : (d :: ds).filterMap ToolFragDelta.name =
          n :: ds.filterMap ToolFragDelta.name := by
        simp [List.filterMap_cons, hn]
      rw [hfm, getLast?_cons_opt]

lemma getFrag_finalToolCalls (cs : List Chunk) (i : Nat) :
    getFrag (finalToolCalls cs) i = stepFragAll none (deltasAt i cs) := by
  rw [finalToolCalls, toolCalls_finalState_chunks cs emptyState, getFrag_foldl]
  rfl

/-- C5: for every chunk sequence in one stream and every tool-call position
index, the accumulator holds a fragment at that index exactly when some delta
mentioned it (created on first mention); the fragment's final name is the
last name delta written to that index (last write wins); and its final
argument string is the ordered concatenation of all argument deltas that
touched that index (appended, never overwritten). -/
theorem C5_tool_fragment_accumulation (cs : List Chunk) (i : Nat) :
    ((getFrag (finalToolCalls cs) i).isSome ↔ deltasAt i cs ≠ []) ∧
    (getFrag (finalToolCalls cs) i).map Fragment.arguments =
      (if deltasAt i cs = [] then none
       else some (concatAll (argDeltasAt i cs))) ∧
    (getFrag (finalToolCalls cs) i).bind Fragment.name =
      (namesAt i cs).getLast? := by
  rw [getFrag_finalToolCalls]
  refine ⟨?_, ?_, stepFragAll_name _⟩
  · cases hd : deltasAt i cs with
    | nil => simp [stepFragAll]
    | cons d ds =>
      have hs := stepFragAll_some_isSome ds (stepFrag none d)
      constructor
      · intro _; exact List.cons_ne_nil d ds
      · intro _; exact hs
  · cases hd : deltasAt i cs with
    | nil => simp [hd, stepFragAll]
    | cons d ds =>
      rw [if_neg (List.cons_ne_nil d ds)]
      have := stepFragAll_args (d :: ds) (List.cons_ne_nil d ds)
      rw [this]
      have hagd : argDeltasAt i cs =
          (d :: ds).filterMap ToolFragDelta.arguments := by
        rw [argDeltasAt, hd]
      rw [hagd]

lemma processLines_eq_nil_finalState (ls : List RawLine) : ∀ s : StreamState,
    processLines s ls = [] → finalState s ls = s := by
  induction ls with
  | nil => intro s _; rfl
  | cons l ls ih =>
    intro s h
    rcases h2 : stepLine s l with ⟨s', r⟩
    cases r with
    | none =>
      have hs : s' = s := by
        have hn := stepLine_none s l
        rw [h2] at hn
        exact hn rfl
      subst hs
      have hp : processLines s' (l :: ls) = processLines s' ls := by
        simp [processLines, h2]
      have hf : finalState s' (l :: ls) = finalState s' ls := by
        simp [finalState, h2]
      rw [hp] at h
      rw [hf]
      exact ih s' h
    | some r =>
      have hp : processLines s (l :: ls) = r :: processLines s' ls := by
        simp [processLines, h2]
      rw [hp] at h
      exact absurd h (List.cons_ne_nil _ _)

lemma processLines_getLast (ls : List RawLine) : ∀ s : StreamState,
    processLines s ls ≠ [] →
    (processLines s ls).getLast? = some (snapshotOf (finalState s ls)) := by
  induction ls with
  | nil => intro s h; exact absurd rfl h
  | cons l ls ih =>
    intro s h
    rcases h2 : stepLine s l with ⟨s', r⟩
    cases r with
    | none =>
      have hs : s' = s := by
        have hn := stepLine_none s l
        rw [h2] at hn
        exact hn rfl
      subst hs
      have hp : processLines s' (l :: ls) = processLines s' ls := by
        simp [processLines, h2]
      have hf : finalState s' (l :: ls) = finalState s' ls := by
        simp [finalState, h2]
      rw [hp] at h
      rw [hp, hf]
      exact ih s' h
    | some r =>
      have hr : r = snapshotOf s' := stepLine_some s l s' r h2
      have hp : processLines s (l :: ls) = r :: processLines s' ls := by
        simp [processLines, h2]
      have hf : finalState s (l :: ls) = finalState s' ls := by
        simp [finalState, h2]
      rw [hp, hf, getLast?_cons_opt]
      by_cases hnil : processLines s' ls = []
      · have hfs : finalState s' ls = s' := processLines_eq_nil_finalState ls s' hnil
        rw [hnil, hfs, hr]
        rfl
      · rw [ih s' hnil]
        rfl

/-- C3: the blocking `chat_invoke` refines draining the streaming sequence:
whenever the complete wire response decodes to the same final content as the
stream's accumulation for that request (the provider-consistency hypothesis),
the blocking call returns exactly the last snapshot of the streaming
sequence — and by its type it returns only that single response, exposing no
intermediate snapshot. -/
theorem C3_blocking_refines_stream_drain (body : String)
    (j : NonStreamingResponse) (lines : List RawLine)
    (hrep : to_llm_response j = snapshotOf (finalState emptyState lines))
    (hne : processLines emptyState lines ≠ []) :
    ∃ r, chat_invoke 200 body j = Except.ok r ∧
      chat_invoke_spec 200 body lines = Except.ok (some r) := by
  refine ⟨to_llm_response j, rfl, ?_⟩
  have hl := processLines_getLast lines emptyState hne
  simp [chat_invoke_spec, chat_invoke_stream, Except.map, hl, hrep]

/-- Witness for C3 at the spec's scenario 2: the stream `"Hel"`, `"lo"` with
finish reason `"stop"` drains to the same response the blocking call decodes
from the complete body `"Hello"`. -/
theorem C3_witness :
    ∃ r,
      chat_invoke 200 "" { content := "Hello", finish_reason := some "stop" } =
        Except.ok r ∧
      chat_invoke_spec 200 ""
          [RawLine.chunk { deltaText := some "Hel" },
           RawLine.chunk { deltaText := some "lo", finishReason := some "stop" }] =
        Except.ok (some r) :=
  C3_blocking_refines_stream_drain ""
    { content := "Hello", finish_reason := some "stop" }
    [RawLine.chunk { deltaText := some "Hel" },
     RawLine.chunk { deltaText := some "lo", finishReason := some "stop" }]
    (by decide) (by decide)

/-- C9: every streaming invocation (sync and async) starts from its own fresh
empty accumulator, and under any interleaved execution of two invocations —
each owning its own state — the snapshots attributed to each invocation are
exactly those of running that invocation alone on its own lines: concurrent
invocations cannot affect each other's accumulated snapshots. -/
theorem C9_fresh_state_no_cross_talk (ls : List (Bool × RawLine)) :
    (∀ (body : String) (lines : List RawLine),
      chat_invoke_stream 200 body lines =
        Except.ok (processLines emptyState lines) ∧
      chat_invoke_stream_async 200 body lines =
        Except.ok (processLines emptyState lines)) ∧
    ownSnapshots true (runTwo emptyState emptyState ls) =
      processLines emptyState (ownLines true ls) ∧
    ownSnapshots false (runTwo emptyState emptyState ls) =
      processLines emptyState (ownLines false ls) :=
  ⟨fun _ _ => ⟨rfl, rfl⟩, (runTwo_proj ls emptyState emptyState).1,
    (runTwo_proj ls emptyState emptyState).2⟩

/-- C1: for every chat invocation (blocking, synchronous streaming, or
asynchronous streaming) whose HTTP response has a non-success status, exactly
one `GatewayHTTPError` carrying the status and body is raised; the error is
raised before any chunk of that call is processed (the streaming result does
not depend on the body's lines), and a streaming call that fails this way
yields zero chunks to the caller (the result is the single error, never an
`ok` snapshot list). -/
theorem C1_nonsuccess_raises_single_error
    (status : Nat) (body : String) (j : NonStreamingResponse)
    (lines : List RawLine) (h : status < 200 ∨ 300 ≤ status) :
    chat_invoke status body j = Except.error { status := status, body := body } ∧
    chat_invoke_stream status body lines =
      Except.error { status := status, body := body } ∧
    chat_invoke_stream_async status body lines =
      Except.error { status := status, body := body } ∧
    chat_invoke_stream status body lines = chat_invoke_stream status body [] := by
  have hne : status ≠ 200 := by omega
  refine ⟨?_, ?_, ?_, ?_⟩ <;>
    simp [chat_invoke, chat_invoke_stream, chat_invoke_stream_async, hne]

/-- Witness for C1 at the spec's scenario 4: HTTP 500 with body
`"server error"` yields the single `GatewayHTTPError{500, "server error"}`
and zero chunks. -/
theorem C1_witness :
    chat_invoke_stream 500 "server error"
        [RawLine.chunk { deltaText := some "hi" }] =
      Except.error { status := 500, body := "server error" } :=
  (C1_nonsuccess_raises_single_error 500 "server error" {}
    [RawLine.chunk { deltaText := some "hi" }] (by decide)).2.1

/-- C8 counterexample: with the endpoint environment variable absent,
construction does not fail with a `ConfigurationError` — it succeeds and the
client carries the fallback endpoint `http://localhost:4000`. -/
theorem C8_counterexample :
    mkLiteLLMGatewayClient none none none =
      Except.ok { api_endpoint := "http://localhost:4000", api_key := none } :=
  rfl

/-- C8 amended: if the endpoint setting is absent, construction still
succeeds — the module-level default `http://localhost:4000` is substituted
and no configuration error is ever raised, at construction or later. -/
theorem C8_absent_endpoint_falls_back_to_default
    (envKey apiKey : Option String) :
    mkLiteLLMGatewayClient none envKey apiKey =
      Except.ok
        { api_endpoint := "http://localhost:4000", api_key := pyOr apiKey envKey } :=
  rfl

/-- C10: for every `embed_invoke` call with success status, if the response
JSON has no `data` key, or its `data` list is empty, or the first data entry
has no `embedding` key, the call returns an `EmbedResponse` whose embedding is
the empty vector rather than raising an error. -/
theorem C10_missing_embedding_yields_empty_vector
    (body : String) (j : EmbedJson)
    (h : j.data = none ∨ j.data = some [] ∨
      ∃ e rest, j.data = some (e :: rest) ∧ e.embedding = none) :
    embed_invoke 200 body j = Except.ok { embedding := [] } := by
  rcases h with h | h | ⟨e, rest, h, he⟩
  · simp [embed_invoke, extractEmbedding, h]
  · simp [embed_invoke, extractEmbedding, h]
  · simp [embed_invoke, extractEmbedding, h, he]

/-- Witness for C10: a success response without a `data` key returns the
empty embedding. -/
theorem C10_witness :
    embed_invoke 200 "" { data := none } = Except.ok { embedding := [] } :=
  C10_missing_embedding_yields_empty_vector "" { data := none } (Or.inl rfl)

/-- C2 counterexample: the claim says no snapshot is yielded after the
terminal sentinel, even when parseable lines follow it; but the client's loop
only `continue`s on the sentinel, so a parseable chunk line after
`data: [DONE]` is still merged and yields a snapshot. -/
theorem C2_counterexample :
    chat_invoke_stream 200 ""
        [RawLine.done, RawLine.chunk { deltaText := some "after" }] =
      Except.ok [{ text := "after" }] :=
  rfl

/-- C2 amended: the sentinel line itself is skipped — it yields no snapshot
and leaves the accumulator unchanged — but the stream only ends when the line
iterator is exhausted, so parseable lines after the sentinel are still
processed and yielded. -/
theorem C2_sentinel_line_skipped (s : StreamState) (ls : List RawLine) :
    processLines s (RawLine.done :: ls) = processLines s ls ∧
    finalState s (RawLine.done :: ls) = finalState s ls := by
  constructor <;>
    simp [processLines, finalState, stepLine, parse_streaming_line, isFalsyLine]

end LiteLLMGateway
